import Mathlib

/-!
Undo/redo history of the whiteboard (`src/script.js`)

Shallow embedding of the history management of `script.js`: the two arrays
`history` and `redoStack`, the functions `saveState`, `restoreState`,
`updateButtons`, and the click handlers of the undo and redo buttons.

JavaScript arrays are lists, oldest element first: `a.push(x)` is `a ++ [x]`,
`a.pop()` returns `a.getLast?` and leaves `a.dropLast`, and `a[a.length - 1]`
is `a.getLast?`.
-/

namespace Whiteboard

/-- The value of `canvas.toDataURL()`: a string, compared by value with `!==`. -/
abbrev Snapshot := String

/-- Calls made on the drawing surface by the undo and redo handlers. -/
inductive Call where
  | restoreState (state : Snapshot)
  | clearRect
  deriving DecidableEq, Repr

/-- The mutable state the history code reads and writes: the globals `history`
and `redoStack`, the content of the canvas (as the data URL that
`canvas.toDataURL()` would return), the `disabled` attribute of the two
buttons, and the trace of surface calls made so far. -/
structure Board where
  history : List Snapshot
  redoStack : List Snapshot
  canvas : Snapshot
  undoDisabled : Bool
  redoDisabled : Bool
  calls : List Call
  deriving DecidableEq, Repr

/-- `updateButtons` (script.js:148-151). -/
def updateButtons (st : Board) : Board :=
  { st with
    undoDisabled := decide (st.history.length ≤ 1)
    redoDisabled := decide (st.redoStack.length = 0) }

/-- `saveState` (script.js:105-113): `state` is `canvas.toDataURL()`. -/
def saveState (st : Board) : Board :=
  let state := st.canvas
  if st.history.length = 0 ∨ st.history.getLast? ≠ some state then
    updateButtons { st with history := st.history ++ [state], redoStack := [] }
  else
    st

/-- `restoreState` (script.js:116-123). The image load is taken to complete
before the next event is handled, so the call replaces the canvas content by
`state`; the call itself is recorded in the trace. -/
def restoreState (state : Snapshot) (st : Board) : Board :=
  { st with canvas := state, calls := st.calls ++ [Call.restoreState state] }

/-- `ctx.clearRect(0, 0, canvas.width, canvas.height)` as issued by the undo
handler (script.js:132); `blank` is the data URL of the cleared canvas. -/
def clearRect (blank : Snapshot) (st : Board) : Board :=
  { st with canvas := blank, calls := st.calls ++ [Call.clearRect] }

/-- Click handler of the undo button (script.js:126-135). The `none` arms of
the matches stand for `pop()` or an index read on an empty array; the length
tests around them exclude that case. -/
def undo (blank : Snapshot) (st : Board) : Board :=
  updateButtons (
    if 1 < st.history.length then
      match st.history.getLast? with
      | some top =>
        let st1 : Board :=
          { st with history := st.history.dropLast, redoStack := st.redoStack ++ [top] }
        match st1.history.getLast? with
        | some prev => restoreState prev st1
        | none => st1
      | none => st
    else if st.history.length = 1 then
      match st.history.getLast? with
      | some top =>
        clearRect blank
          { st with history := st.history.dropLast, redoStack := st.redoStack ++ [top] }
      | none => st
    else
      st)

/-- Click handler of the redo button (script.js:138-145). -/
def redo (st : Board) : Board :=
  updateButtons (
    if 0 < st.redoStack.length then
      match st.redoStack.getLast? with
      | some redoState =>
        let st1 : Board := restoreState redoState { st with redoStack := st.redoStack.dropLast }
        { st1 with history := st1.history ++ [redoState] }
      | none => st
    else
      st)

/-- State of the page when the script starts: both arrays empty (script.js:12-13),
no surface call made yet; the canvas content and the button attributes are
whatever the page provides. -/
def init (canvas : Snapshot) (undoDisabled redoDisabled : Bool) : Board :=
  { history := [], redoStack := [], canvas := canvas,
    undoDisabled := undoDisabled, redoDisabled := redoDisabled, calls := [] }

/-- Startup: the `saveState()` call at the end of the script (script.js:154). -/
def startup (canvas : Snapshot) (undoDisabled redoDisabled : Bool) : Board :=
  saveState (init canvas undoDisabled redoDisabled)

/-- Events handled by the history code. `stroke s` is a drawing or clearing
action that leaves the canvas with content `s` and then calls `saveState`
(`endPosition`, script.js:67-71, and the clear button, script.js:56-59). -/
inductive Event where
  | stroke (s : Snapshot)
  | undoClick
  | redoClick
  deriving DecidableEq, Repr

/-- Drawing on the canvas: the content becomes `s`. -/
def draw (s : Snapshot) (st : Board) : Board :=
  { st with canvas := s }

/-- One event. -/
def step (blank : Snapshot) (st : Board) : Event → Board
  | Event.stroke s => saveState (draw s st)
  | Event.undoClick => undo blank st
  | Event.redoClick => redo st

/-- A sequence of events, handled one after the other. -/
def run (blank : Snapshot) (evs : List Event) (st : Board) : Board :=
  evs.foldl (step blank) st

/-- One event as delivered by the page: a click on the undo button is
dispatched only while the button is not disabled. -/
def uiStep (blank : Snapshot) (st : Board) : Event → Board
  | Event.undoClick => if st.undoDisabled then st else undo blank st
  | ev => step blank st ev

/-- A sequence of events as delivered by the page. -/
def uiRun (blank : Snapshot) (evs : List Event) (st : Board) : Board :=
  evs.foldl (uiStep blank) st

/-- Both buttons show the current availability. -/
def ButtonsCurrent (st : Board) : Prop :=
  st.undoDisabled = decide (st.history.length ≤ 1) ∧
  st.redoDisabled = decide (st.redoStack.length = 0)

/-- The timeline: `history`, followed by `redoStack` from its top down. -/
def timeline (st : Board) : List Snapshot :=
  st.history ++ st.redoStack.reverse

/-- The canvas shows the last element of `history`, and is blank when `history`
is empty. -/
def SurfaceCurrent (blank : Snapshot) (st : Board) : Prop :=
  (∀ x, st.history.getLast? = some x → st.canvas = x) ∧
  (st.history = [] → st.canvas = blank)

/-- Invariant of the runs in which undo clicks reach the handler only while the
button is enabled. -/
def UiInv (st : Board) : Prop :=
  ButtonsCurrent st ∧ st.history ≠ [] ∧ Call.clearRect ∉ st.calls

/-- No two neighbours of the timeline are equal. -/
def NoRepeat (st : Board) : Prop :=
  List.Chain' (fun a b => a ≠ b) (timeline st)

/-! ## Evaluation lemmas -/

theorem saveState_push (st : Board)
    (h : st.history = [] ∨ st.history.getLast? ≠ some st.canvas) :
    saveState st =
      updateButtons { st with history := st.history ++ [st.canvas], redoStack := [] } := by
  have h' : st.history.length = 0 ∨ st.history.getLast? ≠ some st.canvas := by
    rcases h with h | h
    · left; simp [h]
    · right; exact h
  simp only [saveState]
  rw [if_pos h']

theorem saveState_same (st : Board) (h : st.history.getLast? = some st.canvas) :
    saveState st = st := by
  have hne : st.history ≠ [] := by
    intro h0
    rw [h0] at h
    simp at h
  have h' : ¬ (st.history.length = 0 ∨ st.history.getLast? ≠ some st.canvas) := by
    rintro (h1 | h1)
    · exact hne (List.length_eq_zero.mp h1)
    · exact h1 h
  simp only [saveState]
  rw [if_neg h']

theorem undo_nil (blank : Snapshot) (st : Board) (h : st.history = []) :
    undo blank st = updateButtons st := by
  simp [undo, h]

theorem undo_single (blank : Snapshot) (st : Board) (x : Snapshot) (h : st.history = [x]) :
    undo blank st =
      updateButtons (clearRect blank { st with history := [], redoStack := st.redoStack ++ [x] }) := by
  simp [undo, h]

theorem undo_many (blank : Snapshot) (st : Board) (l : List Snapshot) (p x : Snapshot)
    (h : st.history = l ++ [p, x]) :
    undo blank st =
      updateButtons
        (restoreState p { st with history := l ++ [p], redoStack := st.redoStack ++ [x] }) := by
  have e1 : l ++ [p, x] = (l ++ [p]) ++ [x] := by simp
  have e2 : (l ++ [p, x]).dropLast = l ++ [p] := by rw [e1, List.dropLast_concat]
  have e3 : (l ++ [p, x]).getLast? = some x := by rw [e1, List.getLast?_concat]
  simp only [undo, h, e2, e3, List.getLast?_concat, List.length_append, List.length_cons,
    List.length_nil]
  rw [if_pos (by omega)]

theorem redo_nil (st : Board) (h : st.redoStack = []) : redo st = updateButtons st := by
  simp [redo, h]

theorem redo_concat (st : Board) (r : List Snapshot) (t : Snapshot)
    (h : st.redoStack = r ++ [t]) :
    redo st =
      updateButtons
        { restoreState t { st with redoStack := r } with history := st.history ++ [t] } := by
  simp [redo, h, restoreState]

/-- A list is empty, a singleton, or ends in two elements. -/
theorem list_tail_cases (l : List Snapshot) :
    l = [] ∨ (∃ x, l = [x]) ∨ ∃ m p x, l = m ++ [p, x] := by
  rcases List.eq_nil_or_concat l with h | ⟨m, x, h⟩
  · exact Or.inl h
  · rcases List.eq_nil_or_concat m with h2 | ⟨k, p, h2⟩
    · right; left
      exact ⟨x, by simp [h, h2]⟩
    · right; right
      exact ⟨k, p, x, by simp [h, h2]⟩

/-! ## The operations, one at a time -/

/-- C1: `saveState` with captured Snapshot `s` (the canvas content): if `history`
is empty or `s` differs from its last element, `s` is appended and `redoStack`
is emptied; if `s` equals the last element, `history` and `redoStack` are left
unchanged. In both cases the last element of `history` afterwards is `s`, and
saving the same Snapshot a second time adds nothing. -/
theorem saveState_spec (st : Board) :
    ((st.history = [] ∨ st.history.getLast? ≠ some st.canvas) →
        (saveState st).history = st.history ++ [st.canvas] ∧
        (saveState st).redoStack = []) ∧
    (st.history.getLast? = some st.canvas →
        (saveState st).history = st.history ∧
        (saveState st).redoStack = st.redoStack) ∧
    (saveState st).history.getLast? = some st.canvas ∧
    (saveState (saveState st)).history = (saveState st).history ∧
    (saveState (saveState st)).redoStack = (saveState st).redoStack := by
  by_cases h : st.history.getLast? = some st.canvas
  · have e := saveState_same st h
    refine ⟨?_, ?_, ?_, ?_, ?_⟩
    · rintro (h0 | h0)
      · rw [h0] at h
        simp at h
      · exact absurd h h0
    · intro _
      rw [e]
      exact ⟨rfl, rfl⟩
    · rw [e]
      exact h
    · rw [e, e]
    · rw [e, e]
  · have e := saveState_push st (Or.inr h)
    have hl : (saveState st).history.getLast? = some (saveState st).canvas := by
      rw [e]
      simp [updateButtons]
    refine ⟨?_, ?_, ?_, ?_, ?_⟩
    · intro _
      rw [e]
      simp [updateButtons]
    · intro h1
      exact absurd h1 h
    · rw [e]
      simp [updateButtons]
    · rw [saveState_same _ hl]
    · rw [saveState_same _ hl]

theorem saveState_spec_witness :
    ((saveState ⟨["A"], ["C"], "B", false, false, []⟩).history = ["A", "B"] ∧
      (saveState ⟨["A"], ["C"], "B", false, false, []⟩).redoStack = []) ∧
    ((saveState ⟨["A", "B"], ["C"], "B", false, false, []⟩).history = ["A", "B"] ∧
      (saveState ⟨["A", "B"], ["C"], "B", false, false, []⟩).redoStack = ["C"]) :=
  ⟨(saveState_spec ⟨["A"], ["C"], "B", false, false, []⟩).1 (Or.inr (by decide)),
   (saveState_spec ⟨["A", "B"], ["C"], "B", false, false, []⟩).2.1 (by decide)⟩

/-- C2: state transition of undo. With `history` of length at least 1, the new
`history` is the old one without its last element and the new `redoStack` is
the old one with that element pushed on top; with `history` empty, both are
unchanged. -/
theorem undo_transition (blank : Snapshot) (st : Board) :
    (1 ≤ st.history.length →
        ∃ x, st.history.getLast? = some x ∧
          (undo blank st).history = st.history.dropLast ∧
          (undo blank st).redoStack = st.redoStack ++ [x] ∧
          (undo blank st).history.length = st.history.length - 1 ∧
          (undo blank st).redoStack.length = st.redoStack.length + 1) ∧
    (st.history.length = 0 →
        (undo blank st).history = st.history ∧
        (undo blank st).redoStack = st.redoStack) := by
  rcases list_tail_cases st.history with h | ⟨x, h⟩ | ⟨m, p, x, h⟩
  · rw [undo_nil blank st h]
    simp [h, updateButtons]
  · rw [undo_single blank st x h]
    simp [h, updateButtons, clearRect]
  · have e1 : m ++ [p, x] = (m ++ [p]) ++ [x] := by simp
    rw [undo_many blank st m p x h]
    refine ⟨fun _ => ⟨x, ?_, ?_, ?_, ?_, ?_⟩, ?_⟩
    · rw [h, e1, List.getLast?_concat]
    · rw [h, e1, List.dropLast_concat]
      simp [updateButtons, restoreState]
    · simp [updateButtons, restoreState]
    · simp [h, updateButtons, restoreState]
    · simp [updateButtons, restoreState]
    · intro h0
      rw [h] at h0
      simp at h0

theorem undo_transition_witness :
    (∃ x, ["A", "B", "C"].getLast? = some x ∧
      (undo "" ⟨["A", "B", "C"], ["E", "D"], "C", false, false, []⟩).history
        = ["A", "B", "C"].dropLast ∧
      (undo "" ⟨["A", "B", "C"], ["E", "D"], "C", false, false, []⟩).redoStack
        = ["E", "D"] ++ [x] ∧
      (undo "" ⟨["A", "B", "C"], ["E", "D"], "C", false, false, []⟩).history.length = 3 - 1 ∧
      (undo "" ⟨["A", "B", "C"], ["E", "D"], "C", false, false, []⟩).redoStack.length = 2 + 1) ∧
    ((undo "" ⟨[], ["E", "D"], "", true, false, []⟩).history = [] ∧
      (undo "" ⟨[], ["E", "D"], "", true, false, []⟩).redoStack = ["E", "D"]) :=
  ⟨(undo_transition "" ⟨["A", "B", "C"], ["E", "D"], "C", false, false, []⟩).1 (by decide),
   (undo_transition "" ⟨[], ["E", "D"], "", true, false, []⟩).2 (by decide)⟩

/-- C3: surface effect of undo. With `history` of length `n ≥ 2`, the handler
makes exactly one surface call, `restoreState` with what was `history[n-2]`;
with length 1 it makes exactly one call, `clearRect`; with `history` empty it
makes no call. -/
theorem undo_calls (blank : Snapshot) (st : Board) :
    (2 ≤ st.history.length →
        ∃ p, st.history[st.history.length - 2]? = some p ∧
          (undo blank st).calls = st.calls ++ [Call.restoreState p]) ∧
    (st.history.length = 1 →
        (undo blank st).calls = st.calls ++ [Call.clearRect]) ∧
    (st.history.length = 0 →
        (undo blank st).calls = st.calls) := by
  rcases list_tail_cases st.history with h | ⟨x, h⟩ | ⟨m, p, x, h⟩
  · rw [undo_nil blank st h]
    simp [h, updateButtons]
  · rw [undo_single blank st x h]
    simp [h, updateButtons, clearRect]
  · rw [undo_many blank st m p x h]
    refine ⟨fun _ => ⟨p, ?_, ?_⟩, ?_, ?_⟩
    · rw [h]
      have hlen : (m ++ [p, x]).length - 2 = m.length := by simp
      rw [hlen, List.getElem?_append_right (Nat.le_refl _)]
      simp
    · simp [updateButtons, restoreState]
    · intro h1
      rw [h] at h1
      simp at h1
    · intro h0
      rw [h] at h0
      simp at h0

theorem undo_calls_witness :
    (∃ p, ["A", "B", "C"][3 - 2]? = some p ∧
      (undo "" ⟨["A", "B", "C"], [], "C", false, true, [Call.clearRect]⟩).calls
        = [Call.clearRect] ++ [Call.restoreState p]) ∧
    (undo "" ⟨["A"], [], "A", true, true, []⟩).calls = [] ++ [Call.clearRect] ∧
    (undo "" ⟨[], ["A"], "", true, false, [Call.clearRect]⟩).calls = [Call.clearRect] :=
  ⟨(undo_calls "" ⟨["A", "B", "C"], [], "C", false, true, [Call.clearRect]⟩).1 (by decide),
   (undo_calls "" ⟨["A"], [], "A", true, true, []⟩).2.1 (by decide),
   (undo_calls "" ⟨[], ["A"], "", true, false, [Call.clearRect]⟩).2.2 (by decide)⟩

/-- C4: redo. With `redoStack` non-empty and top element `t`, afterwards
`redoStack` is the old one without `t`, `history` is the old one with `t`
appended, and exactly one surface call is made, `restoreState` with `t`; with
`redoStack` empty, `history` and `redoStack` are unchanged and no call is made. -/
theorem redo_spec (st : Board) :
    (st.redoStack ≠ [] →
        ∃ t, st.redoStack.getLast? = some t ∧
          (redo st).redoStack = st.redoStack.dropLast ∧
          (redo st).history = st.history ++ [t] ∧
          (redo st).calls = st.calls ++ [Call.restoreState t]) ∧
    (st.redoStack = [] →
        (redo st).history = st.history ∧
        (redo st).redoStack = st.redoStack ∧
        (redo st).calls = st.calls) := by
  rcases List.eq_nil_or_concat st.redoStack with h | ⟨r, t, h⟩
  · rw [redo_nil st h]
    simp [h, updateButtons]
  · have h' : st.redoStack = r ++ [t] := by simp [h]
    rw [redo_concat st r t h']
    refine ⟨fun _ => ⟨t, ?_, ?_, ?_, ?_⟩, ?_⟩
    · rw [h', List.getLast?_concat]
    · rw [h', List.dropLast_concat]
      simp [updateButtons, restoreState]
    · simp [updateButtons, restoreState]
    · simp [updateButtons, restoreState]
    · intro h0
      rw [h'] at h0
      simp at h0

theorem redo_spec_witness :
    (∃ t, ["C", "B"].getLast? = some t ∧
      (redo ⟨["A"], ["C", "B"], "A", true, false, []⟩).redoStack = ["C", "B"].dropLast ∧
      (redo ⟨["A"], ["C", "B"], "A", true, false, []⟩).history = ["A"] ++ [t] ∧
      (redo ⟨["A"], ["C", "B"], "A", true, false, []⟩).calls = [] ++ [Call.restoreState t]) ∧
    ((redo ⟨["A"], [], "A", true, true, []⟩).history = ["A"] ∧
      (redo ⟨["A"], [], "A", true, true, []⟩).redoStack = [] ∧
      (redo ⟨["A"], [], "A", true, true, []⟩).calls = []) :=
  ⟨(redo_spec ⟨["A"], ["C", "B"], "A", true, false, []⟩).1 (by decide),
   (redo_spec ⟨["A"], [], "A", true, true, []⟩).2 rfl⟩

/-- C5: round trip. With `history` non-empty and current Snapshot `c` (its last
element), undo followed at once by redo gives back exactly the original
`history` and `redoStack`, and the one surface call made by that redo is
`restoreState` with `c`. -/
theorem undo_redo_roundtrip (blank : Snapshot) (st : Board) (hne : st.history ≠ []) :
    ∃ c, st.history.getLast? = some c ∧
      (redo (undo blank st)).history = st.history ∧
      (redo (undo blank st)).redoStack = st.redoStack ∧
      (redo (undo blank st)).calls = (undo blank st).calls ++ [Call.restoreState c] := by
  rcases list_tail_cases st.history with h | ⟨x, h⟩ | ⟨m, p, x, h⟩
  · exact absurd h hne
  · refine ⟨x, by simp [h], ?_⟩
    rw [redo_concat (undo blank st) st.redoStack x
      (by rw [undo_single blank st x h]; simp [updateButtons, clearRect])]
    rw [undo_single blank st x h]
    simp [h, updateButtons, clearRect, restoreState]
  · have e1 : m ++ [p, x] = (m ++ [p]) ++ [x] := by simp
    refine ⟨x, by rw [h, e1, List.getLast?_concat], ?_⟩
    rw [redo_concat (undo blank st) st.redoStack x
      (by rw [undo_many blank st m p x h]; simp [updateButtons, restoreState])]
    rw [undo_many blank st m p x h]
    simp [h, updateButtons, restoreState]

theorem undo_redo_roundtrip_witness :
    ∃ c, ["A", "B"].getLast? = some c ∧
      (redo (undo "" ⟨["A", "B"], ["D", "C"], "B", false, false, []⟩)).history = ["A", "B"] ∧
      (redo (undo "" ⟨["A", "B"], ["D", "C"], "B", false, false, []⟩)).redoStack = ["D", "C"] ∧
      (redo (undo "" ⟨["A", "B"], ["D", "C"], "B", false, false, []⟩)).calls
        = (undo "" ⟨["A", "B"], ["D", "C"], "B", false, false, []⟩).calls
            ++ [Call.restoreState c] :=
  undo_redo_roundtrip "" ⟨["A", "B"], ["D", "C"], "B", false, false, []⟩ (by decide)

/-! ## Invariants of the reachable states -/

theorem run_cons (blank : Snapshot) (e : Event) (evs : List Event) (st : Board) :
    run blank (e :: evs) st = run blank evs (step blank st e) := rfl

theorem uiRun_cons (blank : Snapshot) (e : Event) (evs : List Event) (st : Board) :
    uiRun blank (e :: evs) st = uiRun blank evs (uiStep blank st e) := rfl

/-- An invariant kept by every event holds after every sequence of events. -/
theorem run_invariant (blank : Snapshot) (P : Board → Prop)
    (hstep : ∀ st e, P st → P (step blank st e)) :
    ∀ (evs : List Event) (st : Board), P st → P (run blank evs st) := by
  intro evs
  induction evs with
  | nil => intro st h; exact h
  | cons e evs ih =>
    intro st h
    rw [run_cons]
    exact ih _ (hstep st e h)

theorem uiRun_invariant (blank : Snapshot) (P : Board → Prop)
    (hstep : ∀ st e, P st → P (uiStep blank st e)) :
    ∀ (evs : List Event) (st : Board), P st → P (uiRun blank evs st) := by
  intro evs
  induction evs with
  | nil => intro st h; exact h
  | cons e evs ih =>
    intro st h
    rw [uiRun_cons]
    exact ih _ (hstep st e h)

theorem startup_eq (c : Snapshot) (u r : Bool) :
    startup c u r =
      { history := [c], redoStack := [], canvas := c,
        undoDisabled := true, redoDisabled := true, calls := [] } := by
  simp [startup, init, saveState, updateButtons]

theorem buttonsCurrent_updateButtons (st : Board) : ButtonsCurrent (updateButtons st) :=
  ⟨rfl, rfl⟩

theorem buttonsCurrent_saveState (st : Board) (h : ButtonsCurrent st) :
    ButtonsCurrent (saveState st) := by
  by_cases hs : st.history.getLast? = some st.canvas
  · rw [saveState_same st hs]
    exact h
  · rw [saveState_push st (Or.inr hs)]
    exact buttonsCurrent_updateButtons _

theorem buttonsCurrent_step (blank : Snapshot) (st : Board) (e : Event)
    (h : ButtonsCurrent st) : ButtonsCurrent (step blank st e) := by
  cases e with
  | stroke s => exact buttonsCurrent_saveState (draw s st) h
  | undoClick => exact buttonsCurrent_updateButtons _
  | redoClick => exact buttonsCurrent_updateButtons _

theorem buttonsCurrent_startup (c : Snapshot) (u r : Bool) :
    ButtonsCurrent (startup c u r) := by
  rw [startup_eq]
  exact ⟨rfl, rfl⟩

/-- C6: after startup and after every further `saveState`, undo and redo, the
undo button is disabled exactly when `history.length ≤ 1` and the redo button
is disabled exactly when `redoStack` is empty; this covers a `saveState` that
takes the branch without `updateButtons`. -/
theorem buttons_always_current (blank c : Snapshot) (u r : Bool) (evs : List Event) :
    ((run blank evs (startup c u r)).undoDisabled = true ↔
        (run blank evs (startup c u r)).history.length ≤ 1) ∧
    ((run blank evs (startup c u r)).redoDisabled = true ↔
        (run blank evs (startup c u r)).redoStack = []) ∧
    ((run blank evs (startup c u r)).undoDisabled = false ↔
        1 < (run blank evs (startup c u r)).history.length) ∧
    ((run blank evs (startup c u r)).redoDisabled = false ↔
        (run blank evs (startup c u r)).redoStack ≠ []) := by
  have h := run_invariant blank ButtonsCurrent (buttonsCurrent_step blank) evs _
    (buttonsCurrent_startup c u r)
  obtain ⟨h1, h2⟩ := h
  rw [h1, h2]
  simp [List.length_eq_zero]

theorem surfaceCurrent_step (blank : Snapshot) (st : Board) (e : Event)
    (h : SurfaceCurrent blank st) : SurfaceCurrent blank (step blank st e) := by
  cases e with
  | stroke s =>
    show SurfaceCurrent blank (saveState (draw s st))
    by_cases hs : (draw s st).history.getLast? = some (draw s st).canvas
    · rw [saveState_same _ hs]
      refine ⟨fun x hx => ?_, fun h0 => ?_⟩
      · rw [hs] at hx
        exact Option.some.inj hx
      · rw [h0] at hs
        simp at hs
    · rw [saveState_push _ (Or.inr hs)]
      simp [SurfaceCurrent, updateButtons, draw]
  | undoClick =>
    show SurfaceCurrent blank (undo blank st)
    rcases list_tail_cases st.history with h0 | ⟨x, h0⟩ | ⟨m, p, x, h0⟩
    · rw [undo_nil blank st h0]
      exact ⟨fun x hx => h.1 x hx, fun hn => h.2 hn⟩
    · rw [undo_single blank st x h0]
      simp [SurfaceCurrent, updateButtons, clearRect]
    · rw [undo_many blank st m p x h0]
      simp [SurfaceCurrent, updateButtons, restoreState]
  | redoClick =>
    show SurfaceCurrent blank (redo st)
    rcases List.eq_nil_or_concat st.redoStack with h0 | ⟨r, t, h0⟩
    · rw [redo_nil st h0]
      exact ⟨fun x hx => h.1 x hx, fun hn => h.2 hn⟩
    · rw [redo_concat st r t (by simp [h0])]
      simp [SurfaceCurrent, updateButtons, restoreState]

/-- C7: with `restoreState` completing before the next event, after startup
and after every further stroke-and-`saveState`, undo and redo, the canvas equals
the last element of `history` whenever `history` is non-empty, and is blank
whenever `history` is empty (which only undo can cause). -/
theorem surface_always_current (blank c : Snapshot) (u r : Bool) (evs : List Event) :
    (∀ x, (run blank evs (startup c u r)).history.getLast? = some x →
        (run blank evs (startup c u r)).canvas = x) ∧
    ((run blank evs (startup c u r)).history = [] →
        (run blank evs (startup c u r)).canvas = blank) := by
  refine run_invariant blank (SurfaceCurrent blank) (surfaceCurrent_step blank) evs _ ?_
  rw [startup_eq]
  simp [SurfaceCurrent]

theorem surface_always_current_witness :
    (run "" [Event.stroke "B", Event.stroke "C", Event.undoClick] (startup "A" false false)).canvas
        = "B" ∧
    (run "" [Event.undoClick] (startup "A" false false)).canvas = "" :=
  ⟨(surface_always_current "" "A" false false
      [Event.stroke "B", Event.stroke "C", Event.undoClick]).1 "B" (by decide),
   (surface_always_current "" "A" false false [Event.undoClick]).2 (by decide)⟩

/-- C8 as stated fails: after `saveState`, undo, and a `saveState` that captures
the restored content again, `redoStack` still holds the undone Snapshot. -/
theorem saveState_keeps_redo_counterexample :
    run "" [Event.stroke "B", Event.undoClick] (startup "A" true true)
        = ⟨["A"], ["B"], "A", true, false, [Call.restoreState "A"]⟩ ∧
    (saveState (run "" [Event.stroke "B", Event.undoClick] (startup "A" true true))).redoStack
        = ["B"] ∧
    (step "" (run "" [Event.stroke "B", Event.undoClick] (startup "A" true true))
        (Event.stroke "A")).redoStack ≠ [] := by
  decide

/-- C8, amended: `redoStack` is empty after `saveState` exactly when it was
empty before or the call appended (`history` empty, or the captured Snapshot
different from its last element); a `saveState` capturing the last element of
`history` leaves `redoStack` as it was. -/
theorem saveState_redo_empty_iff (st : Board) :
    ((saveState st).redoStack = [] ↔
        (st.redoStack = [] ∨ st.history = [] ∨ st.history.getLast? ≠ some st.canvas)) ∧
    (st.history.getLast? = some st.canvas → (saveState st).redoStack = st.redoStack) := by
  by_cases hs : st.history.getLast? = some st.canvas
  · have hne : st.history ≠ [] := by
      intro h0
      rw [h0] at hs
      simp at hs
    rw [saveState_same st hs]
    simp [hs, hne]
  · rw [saveState_push st (Or.inr hs)]
    simp [hs, updateButtons]

theorem saveState_redo_empty_iff_witness :
    (saveState ⟨["A", "B"], ["C"], "B", false, false, []⟩).redoStack = ["C"] :=
  (saveState_redo_empty_iff ⟨["A", "B"], ["C"], "B", false, false, []⟩).2 (by decide)

theorem uiInv_step (blank : Snapshot) (st : Board) (e : Event) (h : UiInv st) :
    UiInv (uiStep blank st e) := by
  obtain ⟨hb, hne, hc⟩ := h
  cases e with
  | stroke s =>
    show UiInv (saveState (draw s st))
    refine ⟨buttonsCurrent_saveState (draw s st) hb, ?_, ?_⟩
    · by_cases hs : (draw s st).history.getLast? = some (draw s st).canvas
      · rw [saveState_same _ hs]
        exact hne
      · rw [saveState_push _ (Or.inr hs)]
        simp [updateButtons]
    · by_cases hs : (draw s st).history.getLast? = some (draw s st).canvas
      · rw [saveState_same _ hs]
        exact hc
      · rw [saveState_push _ (Or.inr hs)]
        exact hc
  | undoClick =>
    show UiInv (if st.undoDisabled then st else undo blank st)
    by_cases hd : st.undoDisabled = true
    · rw [if_pos hd]
      exact ⟨hb, hne, hc⟩
    · rw [if_neg hd]
      refine ⟨buttonsCurrent_updateButtons _, ?_⟩
      rcases list_tail_cases st.history with h0 | ⟨x, h0⟩ | ⟨m, p, x, h0⟩
      · exact absurd h0 hne
      · exfalso
        apply hd
        rw [hb.1, h0]
        rfl
      · rw [undo_many blank st m p x h0]
        simpa [updateButtons, restoreState] using hc
  | redoClick =>
    show UiInv (redo st)
    refine ⟨buttonsCurrent_updateButtons _, ?_⟩
    rcases List.eq_nil_or_concat st.redoStack with h0 | ⟨r, t, h0⟩
    · rw [redo_nil st h0]
      exact ⟨hne, hc⟩
    · rw [redo_concat st r t (by simp [h0])]
      simpa [updateButtons, restoreState] using hc

/-- C9: in every run from startup in which a click on the undo button reaches
the handler only while the button is enabled, `history` is never empty, the
undo handler never issues `clearRect`, and whenever the button is enabled
`history` holds more than one Snapshot, so the handler runs its first branch. -/
theorem single_snapshot_branch_unreachable (blank c : Snapshot) (u r : Bool)
    (evs : List Event) :
    (uiRun blank evs (startup c u r)).history ≠ [] ∧
    Call.clearRect ∉ (uiRun blank evs (startup c u r)).calls ∧
    ((uiRun blank evs (startup c u r)).undoDisabled = false ↔
        1 < (uiRun blank evs (startup c u r)).history.length) := by
  have h : UiInv (uiRun blank evs (startup c u r)) := by
    refine uiRun_invariant blank UiInv (uiInv_step blank) evs _ ?_
    rw [startup_eq]
    exact ⟨⟨rfl, rfl⟩, by simp, by simp⟩
  obtain ⟨hb, hne, hc⟩ := h
  refine ⟨hne, hc, ?_⟩
  rw [hb.1]
  simp

theorem timeline_undo (blank : Snapshot) (st : Board) :
    timeline (undo blank st) = timeline st := by
  rcases list_tail_cases st.history with h | ⟨x, h⟩ | ⟨m, p, x, h⟩
  · rw [undo_nil blank st h]
    rfl
  · rw [undo_single blank st x h]
    simp [timeline, updateButtons, clearRect, h]
  · rw [undo_many blank st m p x h]
    simp [timeline, updateButtons, restoreState, h]

theorem timeline_redo (st : Board) : timeline (redo st) = timeline st := by
  rcases List.eq_nil_or_concat st.redoStack with h | ⟨r, t, h⟩
  · rw [redo_nil st h]
    rfl
  · rw [redo_concat st r t (by simp [h])]
    simp [timeline, updateButtons, restoreState, h]

theorem noRepeat_saveState (st : Board) (h : NoRepeat st) : NoRepeat (saveState st) := by
  by_cases hs : st.history.getLast? = some st.canvas
  · rw [saveState_same st hs]
    exact h
  · rw [saveState_push st (Or.inr hs)]
    have hh : List.Chain' (fun a b : Snapshot => a ≠ b) st.history :=
      List.Chain'.left_of_append h
    have : List.Chain' (fun a b : Snapshot => a ≠ b) (st.history ++ [st.canvas]) := by
      refine List.Chain'.append hh (List.chain'_singleton _) ?_
      intro x hx y hy
      rw [Option.mem_def] at hx
      have hy' : st.canvas = y := by simpa using hy
      intro hxy
      apply hs
      rw [hx, hxy, hy']
    simpa [NoRepeat, timeline, updateButtons] using this

theorem noRepeat_step (blank : Snapshot) (st : Board) (e : Event) (h : NoRepeat st) :
    NoRepeat (step blank st e) := by
  cases e with
  | stroke s => exact noRepeat_saveState (draw s st) h
  | undoClick =>
    show List.Chain' _ (timeline (undo blank st))
    rw [timeline_undo]
    exact h
  | redoClick =>
    show List.Chain' _ (timeline (redo st))
    rw [timeline_redo]
    exact h

/-- In a state without repeats the top of `redoStack` differs from the last
element of `history`. -/
theorem noRepeat_junction (st : Board) (h : NoRepeat st) (x t : Snapshot)
    (hx : st.history.getLast? = some x) (ht : st.redoStack.getLast? = some t) : t ≠ x := by
  have hj := (List.chain'_append.1 h).2.2 x hx t (by
    rw [Option.mem_def, List.head?_reverse]
    exact ht)
  exact fun e => hj e.symm

/-- In a state without repeats the last two elements of `history` differ. -/
theorem noRepeat_last_two (st : Board) (h : NoRepeat st) (m : List Snapshot) (p x : Snapshot)
    (hh : st.history = m ++ [p, x]) : p ≠ x := by
  have h1 : List.Chain' (fun a b : Snapshot => a ≠ b) (m ++ [p, x]) := by
    rw [← hh]
    exact List.Chain'.left_of_append h
  have h2 := List.Chain'.right_of_append h1
  exact (List.chain'_cons.1 h2).1

/-- C10: in every state reached from empty `history` and `redoStack` by
`saveState` (with any captured Snapshots), undo and redo, the timeline
(`history` followed by `redoStack` from its top down) has no two equal
neighbours; so `history` has none, the top of `redoStack` differs from the last
element of `history`, and an undo or redo that leaves `history` with a new last
element leaves it with one different from the last element before. -/
theorem no_adjacent_repeats (blank c : Snapshot) (u r : Bool) (evs : List Event) :
    List.Chain' (fun a b => a ≠ b) (timeline (run blank evs (init c u r))) ∧
    List.Chain' (fun a b => a ≠ b) (run blank evs (init c u r)).history ∧
    (∀ x t, (run blank evs (init c u r)).history.getLast? = some x →
        (run blank evs (init c u r)).redoStack.getLast? = some t → t ≠ x) ∧
    (∀ x y, (run blank evs (init c u r)).history.getLast? = some x →
        (undo blank (run blank evs (init c u r))).history.getLast? = some y → y ≠ x) ∧
    (∀ x y, (run blank evs (init c u r)).history.getLast? = some x →
        (run blank evs (init c u r)).redoStack ≠ [] →
        (redo (run blank evs (init c u r))).history.getLast? = some y → y ≠ x) := by
  have h : NoRepeat (run blank evs (init c u r)) :=
    run_invariant blank NoRepeat (noRepeat_step blank) evs _ List.chain'_nil
  generalize run blank evs (init c u r) = st at h
  refine ⟨h, List.Chain'.left_of_append h, noRepeat_junction st h, ?_, ?_⟩
  · intro x y hx hy
    rcases list_tail_cases st.history with h0 | ⟨a, h0⟩ | ⟨m, p, a, h0⟩
    · rw [h0] at hx
      simp at hx
    · rw [undo_single blank st a h0] at hy
      simp [updateButtons, clearRect] at hy
    · have e1 : m ++ [p, a] = (m ++ [p]) ++ [a] := by simp
      rw [undo_many blank st m p a h0] at hy
      rw [h0, e1, List.getLast?_concat] at hx
      have hy' : p = y := by simpa [updateButtons, restoreState] using hy
      have hx' : a = x := Option.some.inj hx
      rw [← hy', ← hx']
      exact noRepeat_last_two st h m p a h0
  · intro x y hx hne hy
    rcases List.eq_nil_or_concat st.redoStack with h0 | ⟨q, t, h0⟩
    · exact absurd h0 hne
    · have h0' : st.redoStack = q ++ [t] := by simp [h0]
      rw [redo_concat st q t h0'] at hy
      have hy' : t = y := by simpa [updateButtons, restoreState] using hy
      rw [← hy']
      exact noRepeat_junction st h x t hx (by rw [h0', List.getLast?_concat])

theorem no_adjacent_repeats_witness :
    ((run "" [Event.stroke "A", Event.stroke "B", Event.stroke "B", Event.undoClick]
        (init "A" false false)).history.getLast? = some "A" ∧
      (run "" [Event.stroke "A", Event.stroke "B", Event.stroke "B", Event.undoClick]
        (init "A" false false)).redoStack.getLast? = some "B" ∧
      "B" ≠ "A") ∧
    ((undo "" (run "" [Event.stroke "A", Event.stroke "B", Event.stroke "B"]
        (init "A" false false))).history.getLast? = some "A" ∧
      "A" ≠ "B") ∧
    ((redo (run "" [Event.stroke "A", Event.stroke "B", Event.stroke "C", Event.undoClick]
        (init "A" false false))).history.getLast? = some "C" ∧
      "C" ≠ "B") :=
  ⟨⟨by decide, by decide,
    (no_adjacent_repeats "" "A" false false
      [Event.stroke "A", Event.stroke "B", Event.stroke "B", Event.undoClick]).2.2.1
      "A" "B" (by decide) (by decide)⟩,
   ⟨by decide,
    (no_adjacent_repeats "" "A" false false
      [Event.stroke "A", Event.stroke "B", Event.stroke "B"]).2.2.2.1
      "B" "A" (by decide) (by decide)⟩,
   ⟨by decide,
    (no_adjacent_repeats "" "A" false false
      [Event.stroke "A", Event.stroke "B", Event.stroke "C", Event.undoClick]).2.2.2.2
      "B" "C" (by decide) (by decide) (by decide)⟩⟩

end Whiteboard
